import Mathlib

/-! Shallow embedding of `dice_roll_simulation.py`.

Python dictionaries are modelled as association lists (`List (κ × ν)`),
which preserve the insertion order that Python dictionaries guarantee.
The process-wide random source (`random.randint(1, 6)` called twice per
trial) is modelled as an injected stream `draws : Nat → Nat × Nat` giving
the pair of die values for each trial, together with the hypothesis
`validDraw` expressing the contract of `random.randint(1, 6)`.
A Python `KeyError` (dictionary lookup failure) and a `ZeroDivisionError`
are both modelled as `none` in an `Option` result; each embedded function
has at most one failure mode, so the encodings stay unambiguous.
Python's float division is modelled with exact rationals (`Rat`).
-/

/-- Contract of the two `random.randint(1, 6)` calls of one trial:
each die value lies in {1, ..., 6}. -/
abbrev validDraw (d : Nat × Nat) : Prop :=
  1 ≤ d.1 ∧ d.1 ≤ 6 ∧ 1 ≤ d.2 ∧ d.2 ≤ 6

/-- Line 27: `roll_counts = {i: 0 for i in range(2, 13)}` — the initial
histogram with keys 2..12 all mapped to 0, in insertion order. -/
def initCounts : List (Nat × Nat) :=
  (List.range' 2 11).map (fun i => (i, 0))

/-- Line 34: `roll_counts[total_sum] += 1`.  Incrementing a key of a Python
dictionary raises `KeyError` (modelled as `none`) when the key is absent;
otherwise it increments the first (unique) binding in place. -/
def incrKey : List (Nat × Nat) → Nat → Option (List (Nat × Nat))
  | [], _ => none
  | (k, v) :: rest, s =>
    if k = s then some ((k, v + 1) :: rest)
    else (incrKey rest s).map (fun r => (k, v) :: r)

/-- Lines 29–34: the `for _ in range(num_rolls)` loop, indexed so that
trial `i` consumes `draws i`; `n` is the number of remaining iterations. -/
def simulateFrom (draws : Nat → Nat × Nat) :
    Nat → Nat → List (Nat × Nat) → Option (List (Nat × Nat))
  | _, 0, acc => some acc
  | i, n + 1, acc =>
    match incrKey acc ((draws i).1 + (draws i).2) with
    | none => none
    | some acc' => simulateFrom draws (i + 1) n acc'

/-- Lines 16–36: `simulate_dice_rolls(num_rolls=10000)`.  `range(num_rolls)`
iterates `max num_rolls 0` times, i.e. `num_rolls.toNat` times. -/
def simulate_dice_rolls (draws : Nat → Nat × Nat) (num_rolls : Int) :
    Option (List (Nat × Nat)) :=
  simulateFrom draws 0 num_rolls.toNat initCounts

/-- Line 16: the declared default value of the `num_rolls` parameter. -/
def simulate_dice_rolls_default : Int := 10000

/-- Lines 38–53: `calculate_percentages(roll_counts, total_rolls)`.
Iterates the dictionary in order; `count / total_rolls` raises
`ZeroDivisionError` (modelled as `none`) when `total_rolls == 0`,
otherwise `percentage = (count / total_rolls) * 100` exactly as written. -/
def calculate_percentages {α : Type} :
    List (α × Nat) → Int → Option (List (α × Rat))
  | [], _ => some []
  | (s, c) :: rest, t =>
    if t = 0 then none
    else (calculate_percentages rest t).map
      (fun ps => (s, ((c : Rat) / (t : Rat)) * 100) :: ps)

/-- Line 89: `NUM_ROLLS = 10000` in `main`. -/
def NUM_ROLLS : Int := 10000

/-- Lines 84–104, step 1 of `main`:
`roll_counts = simulate_dice_rolls(NUM_ROLLS)`. -/
def main_roll_counts (draws : Nat → Nat × Nat) : Option (List (Nat × Nat)) :=
  simulate_dice_rolls draws NUM_ROLLS

/-- Lines 84–104, step 2 of `main`:
`percentages = calculate_percentages(roll_counts, NUM_ROLLS)`. -/
def main_percentages (draws : Nat → Nat × Nat) : Option (List (Nat × Rat)) :=
  match main_roll_counts draws with
  | none => none
  | some counts => calculate_percentages counts NUM_ROLLS

/-! Helper lemmas shared by several claim theorems. -/

theorem initCounts_map_fst : initCounts.map Prod.fst = List.range' 2 11 := by
  decide

theorem mem_initCounts_keys {s : Nat} (h2 : 2 ≤ s) (h12 : s ≤ 12) :
    s ∈ initCounts.map Prod.fst := by
  interval_cases s <;> decide

theorem incrKey_spec (s : Nat) (acc : List (Nat × Nat))
    (h : s ∈ acc.map Prod.fst) :
    ∃ r, incrKey acc s = some r ∧ r.map Prod.fst = acc.map Prod.fst ∧
      (r.map Prod.snd).sum = (acc.map Prod.snd).sum + 1 := by
  induction acc with
  | nil => simp at h
  | cons p rest ih =>
    obtain ⟨k, v⟩ := p
    by_cases hk : k = s
    · exact ⟨(k, v + 1) :: rest, by simp [incrKey, hk], by simp, by simp; ring⟩
    · have hs : s ∈ rest.map Prod.fst := by
        simpa [hk, Ne.symm hk] using h
      obtain ⟨r, hr, hkeys, hsum⟩ := ih hs
      refine ⟨(k, v) :: r, ?_, ?_, ?_⟩
      · simp [incrKey, hk, hr]
      · simp [hkeys]
      · simp [hsum]; ring

theorem simulateFrom_spec (draws : Nat → Nat × Nat)
    (hd : ∀ j, validDraw (draws j)) :
    ∀ (n i : Nat) (acc : List (Nat × Nat)),
      acc.map Prod.fst = initCounts.map Prod.fst →
      ∃ r, simulateFrom draws i n acc = some r ∧
        r.map Prod.fst = initCounts.map Prod.fst ∧
        (r.map Prod.snd).sum = (acc.map Prod.snd).sum + n := by
  intro n
  induction n with
  | zero => exact fun i acc hacc => ⟨acc, rfl, hacc, by simp⟩
  | succ m ih =>
    intro i acc hacc
    obtain ⟨hd1, hd2, hd3, hd4⟩ := hd i
    have hmem : (draws i).1 + (draws i).2 ∈ acc.map Prod.fst := by
      rw [hacc]
      exact mem_initCounts_keys (by omega) (by omega)
    obtain ⟨acc', hacc', hkeys', hsum'⟩ := incrKey_spec _ acc hmem
    obtain ⟨r, hr, hkeys, hsum⟩ := ih (i + 1) acc' (hkeys'.trans hacc)
    refine ⟨r, ?_, hkeys, ?_⟩
    · simp [simulateFrom, hacc', hr]
    · rw [hsum, hsum']; ring

theorem initCounts_snd_sum : (initCounts.map Prod.snd).sum = 0 := by
  decide

theorem calculate_percentages_eq_map {α : Type} (counts : List (α × Nat))
    (t : Int) (ht : t ≠ 0) :
    calculate_percentages counts t =
      some (counts.map (fun p => (p.1, ((p.2 : Rat) / (t : Rat)) * 100))) := by
  induction counts with
  | nil => rfl
  | cons p rest ih =>
    obtain ⟨s, c⟩ := p
    simp [calculate_percentages, ht, ih]

/-! Claim theorems. -/

/-- C1: for every `num_rolls > 0` (and a random source honouring the
`random.randint(1, 6)` contract), `simulate_dice_rolls` returns a mapping
whose 11 bucket values sum to `num_rolls`. -/
theorem simulate_dice_rolls_sum_eq_num_rolls (draws : Nat → Nat × Nat)
    (num_rolls : Int) (hd : ∀ j, validDraw (draws j)) (hn : 0 < num_rolls) :
    ∃ r, simulate_dice_rolls draws num_rolls = some r ∧
      r.map Prod.fst = initCounts.map Prod.fst ∧
      ((r.map Prod.snd).sum : Int) = num_rolls := by
  obtain ⟨r, hr, hkeys, hsum⟩ :=
    simulateFrom_spec draws hd num_rolls.toNat 0 initCounts rfl
  refine ⟨r, hr, hkeys, ?_⟩
  rw [hsum, initCounts_snd_sum]
  omega

/-- Witness for C1 at the constant draw stream `(2, 5)` and 3 rolls. -/
theorem simulate_dice_rolls_sum_eq_num_rolls_witness :
    ∃ r, simulate_dice_rolls (fun _ => (2, 5)) 3 = some r ∧
      r.map Prod.fst = initCounts.map Prod.fst ∧
      ((r.map Prod.snd).sum : Int) = 3 :=
  simulate_dice_rolls_sum_eq_num_rolls (fun _ => (2, 5)) 3
    (fun _ => show validDraw (2, 5) by decide) (by decide)

/-- C2 counterexample: `simulate_dice_rolls(0)` does not fail — the loop
body never runs and the all-zero mapping is returned. -/
theorem simulate_zero_returns_counts :
    simulate_dice_rolls (fun _ => (1, 1)) 0 = some initCounts := rfl

/-- C2 amended: for every `num_rolls ≤ 0`, `simulate_dice_rolls` performs
no validation and returns the mapping with all 11 keys bound to 0. -/
theorem simulate_nonpos_returns_zero_counts (draws : Nat → Nat × Nat)
    (num_rolls : Int) (h : num_rolls ≤ 0) :
    simulate_dice_rolls draws num_rolls = some initCounts := by
  unfold simulate_dice_rolls
  have h0 : num_rolls.toNat = 0 := by omega
  rw [h0]
  rfl

/-- Witness for the amended C2 at `num_rolls = -5`. -/
theorem simulate_nonpos_returns_zero_counts_witness :
    simulate_dice_rolls (fun _ => (1, 1)) (-5) = some initCounts :=
  simulate_nonpos_returns_zero_counts (fun _ => (1, 1)) (-5) (by decide)

/-- C3: `calculate_percentages` with a non-empty counts mapping and total 0
hits `count / 0` on the first iteration and fails with `ZeroDivisionError`. -/
theorem calculate_percentages_zero_total {α : Type}
    (counts : List (α × Nat)) (h : counts ≠ []) :
    calculate_percentages counts 0 = none := by
  cases counts with
  | nil => exact absurd rfl h
  | cons p rest => obtain ⟨s, c⟩ := p; simp [calculate_percentages]

/-- Witness for C3 at the all-zero mapping `{2:0, ..., 12:0}` and total 0. -/
theorem calculate_percentages_zero_total_witness :
    calculate_percentages initCounts 0 = none :=
  calculate_percentages_zero_total initCounts (by decide)

/-- C4: for every valid input, the counts returned by `simulate_dice_rolls`
and the percentages returned by `calculate_percentages` both have exactly
the keys 2..12, in order — so every key is present even with count 0. -/
theorem all_eleven_keys_present (draws : Nat → Nat × Nat) (num_rolls : Int)
    (hd : ∀ j, validDraw (draws j)) (hn : 0 < num_rolls) :
    ∃ r ps, simulate_dice_rolls draws num_rolls = some r ∧
      calculate_percentages r num_rolls = some ps ∧
      r.map Prod.fst = List.range' 2 11 ∧
      ps.map Prod.fst = List.range' 2 11 := by
  obtain ⟨r, hr, hkeys, _⟩ :=
    simulateFrom_spec draws hd num_rolls.toNat 0 initCounts rfl
  have hkeys' : r.map Prod.fst = List.range' 2 11 :=
    hkeys.trans initCounts_map_fst
  refine ⟨r, _, hr, calculate_percentages_eq_map r num_rolls (by omega), ?_, ?_⟩
  · exact hkeys'
  · rw [List.map_map]
    exact hkeys'

/-- Witness for C4 at the constant draw stream `(6, 6)` and 2 rolls. -/
theorem all_eleven_keys_present_witness :
    ∃ r ps, simulate_dice_rolls (fun _ => (6, 6)) 2 = some r ∧
      calculate_percentages r 2 = some ps ∧
      r.map Prod.fst = List.range' 2 11 ∧
      ps.map Prod.fst = List.range' 2 11 :=
  all_eleven_keys_present (fun _ => (6, 6)) 2
    (fun _ => show validDraw (6, 6) by decide) (by decide)

/-- C5: for every counts mapping and every total > 0,
`calculate_percentages` maps each key `s` to exactly
`100 * counts[s] / total`, keeping keys and order. -/
theorem calculate_percentages_formula {α : Type} (counts : List (α × Nat))
    (t : Int) (ht : 0 < t) :
    calculate_percentages counts t =
      some (counts.map (fun p => (p.1, 100 * (p.2 : Rat) / (t : Rat)))) := by
  rw [calculate_percentages_eq_map counts t (by omega)]
  refine congrArg some (List.map_congr_left fun p _ => ?_)
  refine congrArg (Prod.mk p.1) ?_
  ring

/-- Witness for C5 at counts `{2:1, 7:3}` and total 4. -/
theorem calculate_percentages_formula_witness :
    calculate_percentages [((2 : Nat), 1), (7, 3)] 4 =
      some ([((2 : Nat), 1), (7, 3)].map
        (fun p => (p.1, 100 * (p.2 : Rat) / ((4 : Int) : Rat)))) :=
  calculate_percentages_formula [((2 : Nat), 1), (7, 3)] 4 (by decide)

/-- C6: with a random source honouring the `random.randint(1, 6)` contract,
every per-trial sum lies in [2, 12], incrementing such a sum never raises
`KeyError` on a mapping with the 11 standard keys, and the whole
simulation never hits the lookup-failure branch. -/
theorem trial_sums_in_range_no_key_error (draws : Nat → Nat × Nat)
    (num_rolls : Int) (hd : ∀ j, validDraw (draws j)) :
    (∀ j, 2 ≤ (draws j).1 + (draws j).2 ∧ (draws j).1 + (draws j).2 ≤ 12) ∧
    (∀ j (acc : List (Nat × Nat)),
      acc.map Prod.fst = initCounts.map Prod.fst →
      incrKey acc ((draws j).1 + (draws j).2) ≠ none) ∧
    simulate_dice_rolls draws num_rolls ≠ none := by
  have hrange : ∀ j, 2 ≤ (draws j).1 + (draws j).2 ∧
      (draws j).1 + (draws j).2 ≤ 12 := by
    intro j
    obtain ⟨h1, h2, h3, h4⟩ := hd j
    omega
  refine ⟨hrange, ?_, ?_⟩
  · intro j acc hacc
    have hmem : (draws j).1 + (draws j).2 ∈ acc.map Prod.fst := by
      rw [hacc]
      exact mem_initCounts_keys (hrange j).1 (hrange j).2
    obtain ⟨r, hr, -, -⟩ := incrKey_spec _ acc hmem
    simp [hr]
  · obtain ⟨r, hr, -, -⟩ :=
      simulateFrom_spec draws hd num_rolls.toNat 0 initCounts rfl
    simp [simulate_dice_rolls, hr]

/-- Witness for C6 at the constant draw stream `(4, 6)` and 7 rolls. -/
theorem trial_sums_in_range_no_key_error_witness :
    simulate_dice_rolls (fun _ => (4, 6)) 7 ≠ none ∧
    2 ≤ 4 + 6 ∧ 4 + 6 ≤ 12 ∧
    incrKey initCounts (4 + 6) ≠ none := by
  have h := trial_sums_in_range_no_key_error (fun _ => (4, 6)) 7
    (fun _ => show validDraw (4, 6) by decide)
  exact ⟨h.2.2, (h.1 0).1, (h.1 0).2, h.2.1 0 initCounts rfl⟩

/-- C10: for every counts mapping (any key set) and every total > 0, the
result of `calculate_percentages` has exactly the input's keys in the
input's iteration order. -/
theorem calculate_percentages_preserves_keys {α : Type}
    (counts : List (α × Nat)) (t : Int) (ht : 0 < t) :
    ∃ ps, calculate_percentages counts t = some ps ∧
      ps.map Prod.fst = counts.map Prod.fst := by
  refine ⟨_, calculate_percentages_eq_map counts t (by omega), ?_⟩
  rw [List.map_map]
  rfl

/-- C7: for counts produced by `simulate_dice_rolls` with `num_rolls > 0`,
the values of the percentage mapping sum to exactly 100 in the exact
rational model of the float arithmetic. -/
theorem percentages_sum_to_100 (draws : Nat → Nat × Nat) (num_rolls : Int)
    (hd : ∀ j, validDraw (draws j)) (hn : 0 < num_rolls) :
    ∃ r ps, simulate_dice_rolls draws num_rolls = some r ∧
      calculate_percentages r num_rolls = some ps ∧
      (ps.map Prod.snd).sum = (100 : Rat) := by
  obtain ⟨r, hr, hkeys, hsum⟩ :=
    simulateFrom_spec draws hd num_rolls.toNat 0 initCounts rfl
  refine ⟨r, _, hr, calculate_percentages_eq_map r num_rolls (by omega), ?_⟩
  rw [List.map_map]
  have h1 : (r.map
        (Prod.snd ∘ fun p => (p.1, ((p.2 : Rat) / (num_rolls : Rat)) * 100))).sum
      = (r.map (fun p => (p.2 : Rat))).sum * ((100 : Rat) / (num_rolls : Rat)) := by
    rw [← List.sum_map_mul_right]
    refine congrArg List.sum (List.map_congr_left fun p _ => ?_)
    show ((p.2 : Rat) / (num_rolls : Rat)) * 100
      = (p.2 : Rat) * ((100 : Rat) / (num_rolls : Rat))
    ring
  have h2 : (r.map (fun p => (p.2 : Rat))).sum = ((r.map Prod.snd).sum : Rat) := by
    rw [Nat.cast_list_sum, List.map_map]
    rfl
  have h3 : ((r.map Prod.snd).sum : Rat) = (num_rolls : Rat) := by
    have h5 : ((num_rolls.toNat : Nat) : Int) = num_rolls :=
      Int.toNat_of_nonneg hn.le
    rw [hsum, initCounts_snd_sum, Nat.zero_add]
    conv_rhs => rw [← h5]
    exact (Int.cast_natCast _).symm
  have ht : (num_rolls : Rat) ≠ 0 := by
    have : num_rolls ≠ 0 := by omega
    exact_mod_cast this
  rw [h1, h2, h3, mul_comm]
  exact div_mul_cancel₀ 100 ht

/-- Witness for C7 at the constant draw stream `(3, 3)` and 4 rolls. -/
theorem percentages_sum_to_100_witness :
    ∃ r ps, simulate_dice_rolls (fun _ => (3, 3)) 4 = some r ∧
      calculate_percentages r 4 = some ps ∧
      (ps.map Prod.snd).sum = (100 : Rat) :=
  percentages_sum_to_100 (fun _ => (3, 3)) 4
    (fun _ => show validDraw (3, 3) by decide) (by decide)

/-- C9: the roll count is the single configuration parameter — its declared
default is 10000 and `main` runs both the simulation and the percentage
computation with 10000 rolls. -/
theorem roll_count_default_is_10000 :
    simulate_dice_rolls_default = 10000 ∧ NUM_ROLLS = 10000 ∧
    main_roll_counts = (fun draws => simulate_dice_rolls draws 10000) ∧
    main_percentages = (fun draws =>
      match simulate_dice_rolls draws 10000 with
      | none => none
      | some counts => calculate_percentages counts 10000) :=
  ⟨rfl, rfl, rfl, rfl⟩

theorem simulate_one_step (draws : Nat → Nat × Nat) :
    simulate_dice_rolls draws 1 =
      incrKey initCounts ((draws 0).1 + (draws 0).2) := by
  show simulateFrom draws 0 1 initCounts = _
  cases h : incrKey initCounts ((draws 0).1 + (draws 0).2) with
  | none => simp [simulateFrom, h]
  | some acc => simp [simulateFrom, h]

theorem incrKey_initCounts_one_hot (s : Nat) (h2 : 2 ≤ s) (h12 : s ≤ 12) :
    incrKey initCounts s =
      some (initCounts.map (fun p => (p.1, if p.1 = s then 1 else 0))) := by
  interval_cases s <;> decide

theorem one_hot_filter_lengths {β : Type} [DecidableEq β] (v1 v0 : β)
    (hne : v1 ≠ v0) (s : Nat) (h2 : 2 ≤ s) (h12 : s ≤ 12) :
    ((initCounts.map (fun p => (p.1, if p.1 = s then v1 else v0))).filter
        (fun p => decide (p.2 = v1))).length = 1 ∧
    ((initCounts.map (fun p => (p.1, if p.1 = s then v1 else v0))).filter
        (fun p => decide (p.2 = v0))).length = 10 := by
  interval_cases s <;>
    simp [initCounts, List.filter, hne, Ne.symm hne]

/-- C8: `simulate_dice_rolls(1)` yields exactly one bucket with count 1 and
the other ten with count 0; the percentages over total 1 have exactly one
bucket at 100 and the other ten at 0. -/
theorem simulate_one_roll_one_hot (draws : Nat → Nat × Nat)
    (hd : validDraw (draws 0)) :
    ∃ r ps, simulate_dice_rolls draws 1 = some r ∧
      calculate_percentages r 1 = some ps ∧
      (r.filter (fun p => decide (p.2 = 1))).length = 1 ∧
      (r.filter (fun p => decide (p.2 = 0))).length = 10 ∧
      (ps.filter (fun p => decide (p.2 = (100 : Rat)))).length = 1 ∧
      (ps.filter (fun p => decide (p.2 = (0 : Rat)))).length = 10 := by
  obtain ⟨d1, d2, d3, d4⟩ := hd
  obtain ⟨s, hsdef⟩ : ∃ s, (draws 0).1 + (draws 0).2 = s := ⟨_, rfl⟩
  have h2 : 2 ≤ s := by omega
  have h12 : s ≤ 12 := by omega
  have hsim : simulate_dice_rolls draws 1 =
      some (initCounts.map (fun p => (p.1, if p.1 = s then 1 else 0))) := by
    rw [simulate_one_step draws, hsdef]
    exact incrKey_initCounts_one_hot s h2 h12
  have hps : calculate_percentages
        (initCounts.map (fun p => (p.1, if p.1 = s then 1 else 0))) 1 =
      some (initCounts.map (fun p => (p.1, if p.1 = s then (100 : Rat) else 0))) := by
    rw [calculate_percentages_eq_map _ 1 (by decide)]
    refine congrArg some ?_
    rw [List.map_map]
    refine List.map_congr_left fun p _ => ?_
    by_cases h : p.1 = s <;> simp [h]
  refine ⟨_, _, hsim, hps, ?_, ?_, ?_, ?_⟩
  · exact (one_hot_filter_lengths (1 : Nat) 0 (by decide) s h2 h12).1
  · exact (one_hot_filter_lengths (1 : Nat) 0 (by decide) s h2 h12).2
  · exact (one_hot_filter_lengths (100 : Rat) 0 (by norm_num) s h2 h12).1
  · exact (one_hot_filter_lengths (100 : Rat) 0 (by norm_num) s h2 h12).2

/-- Witness for C8 at the single draw `(2, 3)`. -/
theorem simulate_one_roll_one_hot_witness :
    ∃ r ps, simulate_dice_rolls (fun _ => (2, 3)) 1 = some r ∧
      calculate_percentages r 1 = some ps ∧
      (r.filter (fun p => decide (p.2 = 1))).length = 1 ∧
      (r.filter (fun p => decide (p.2 = 0))).length = 10 ∧
      (ps.filter (fun p => decide (p.2 = (100 : Rat)))).length = 1 ∧
      (ps.filter (fun p => decide (p.2 = (0 : Rat)))).length = 10 :=
  simulate_one_roll_one_hot (fun _ => (2, 3))
    (show validDraw (2, 3) by decide)

/-- Witness for C10 at a mapping whose keys are outside {2, ..., 12}. -/
theorem calculate_percentages_preserves_keys_witness :
    ∃ ps, calculate_percentages [((99 : Int), 2), (-1, 5)] 7 = some ps ∧
      ps.map Prod.fst = [((99 : Int), 2), (-1, 5)].map Prod.fst :=
  calculate_percentages_preserves_keys [((99 : Int), 2), (-1, 5)] 7 (by decide)
